import Mathlib

set_option autoImplicit false

namespace Xdg

/-! ## Character-level machinery for the POSIX `path/filepath` functions.

The repository resolves paths with Go's `filepath.Join`, `filepath.SplitList`
and `strings.Split`.  `filepath.Join` (POSIX build) joins its arguments,
starting from the first non-empty one, with `'/'` and then lexically cleans
the result with `filepath.Clean`.  We model all of this on `List Char`. -/

/-- Go `strings.Split` restricted to a one-character separator: splitting the
empty string yields `[[]]`, and each occurrence of the separator starts a new
chunk.  Empty chunks are preserved. -/
def splitOn (c : Char) : List Char → List (List Char)
  | [] => [[]]
  | a :: rest =>
    let r := splitOn c rest
    if a = c then [] :: r else (a :: r.headI) :: r.tail

theorem splitOn_nil (c : Char) : splitOn c [] = [[]] := rfl

theorem splitOn_cons_sep (c : Char) (s : List Char) :
    splitOn c (c :: s) = [] :: splitOn c s := by
  simp [splitOn]

theorem splitOn_cons_ne (c a : Char) (s : List Char) (h : a ≠ c) :
    splitOn c (a :: s) = (a :: (splitOn c s).headI) :: (splitOn c s).tail := by
  simp [splitOn, h]

theorem splitOn_ne_nil (c : Char) (s : List Char) : splitOn c s ≠ [] := by
  cases s with
  | nil => simp [splitOn]
  | cons a rest =>
    by_cases h : a = c
    · subst h; simp [splitOn_cons_sep]
    · simp [splitOn_cons_ne c a rest h]

theorem splitOn_append (c : Char) (x y : List Char) :
    splitOn c (x ++ c :: y) = splitOn c x ++ splitOn c y := by
  induction x with
  | nil => simp [splitOn_cons_sep, splitOn_nil]
  | cons a t ih =>
    by_cases h : a = c
    · subst h
      simp only [List.cons_append, splitOn_cons_sep, ih, List.cons_append]
    · obtain ⟨h₀, t₀, ht⟩ := List.exists_cons_of_ne_nil (splitOn_ne_nil c t)
      simp only [List.cons_append, splitOn_cons_ne c a _ h, ih, ht,
        List.cons_append, List.headI, List.tail]

theorem splitOn_of_not_mem (c : Char) (s : List Char) (h : c ∉ s) :
    splitOn c s = [s] := by
  induction s with
  | nil => rfl
  | cons a t ih =>
    have ha : a ≠ c := by
      intro hac; exact h (hac ▸ List.mem_cons_self a t)
    have ht : c ∉ t := fun hm => h (List.mem_cons_of_mem a hm)
    simp [splitOn_cons_ne c a t ha, ih ht]

theorem not_mem_of_mem_splitOn (c : Char) (s : List Char) :
    ∀ e ∈ splitOn c s, c ∉ e := by
  induction s with
  | nil =>
    intro e he
    simp only [splitOn_nil, List.mem_singleton] at he
    simp [he]
  | cons a t ih =>
    intro e he
    by_cases h : a = c
    · subst h
      rw [splitOn_cons_sep] at he
      rcases List.mem_cons.mp he with h1 | h1
      · simp [h1]
      · exact ih e h1
    · obtain ⟨h₀, t₀, ht⟩ := List.exists_cons_of_ne_nil (splitOn_ne_nil c t)
      rw [splitOn_cons_ne c a t h, ht] at he
      simp only [List.headI, List.tail] at he
      rcases List.mem_cons.mp he with h1 | h1
      · subst h1
        intro hm
        rcases List.mem_cons.mp hm with h2 | h2
        · exact h h2.symm
        · exact ih h₀ (ht ▸ List.mem_cons_self h₀ t₀) h2
      · exact ih e (ht ▸ List.mem_cons_of_mem h₀ h1)

/-- Joins chunks with the path separator `'/'`; inverse of `splitOn '/'` on
separator-free chunks. -/
def joinSep : List (List Char) → List Char
  | [] => []
  | [e] => e
  | e :: f :: t => e ++ '/' :: joinSep (f :: t)

theorem joinSep_singleton (e : List Char) : joinSep [e] = e := rfl

theorem joinSep_cons_cons (e f : List Char) (t : List (List Char)) :
    joinSep (e :: f :: t) = e ++ '/' :: joinSep (f :: t) := rfl

theorem splitOn_joinSep (l : List (List Char)) (hl : l ≠ [])
    (h : ∀ e ∈ l, '/' ∉ e) : splitOn '/' (joinSep l) = l := by
  induction l with
  | nil => exact absurd rfl hl
  | cons e t ih =>
    cases t with
    | nil =>
      rw [joinSep_singleton, splitOn_of_not_mem _ e (h e (List.mem_cons_self e []))]
    | cons f t' =>
      rw [joinSep_cons_cons, splitOn_append, splitOn_of_not_mem _ e
        (h e (List.mem_cons_self e _)), ih (by simp)
        (fun x hx => h x (List.mem_cons_of_mem e hx))]
      rfl

/-- One element step of Go's `filepath.Clean` (POSIX): empty and `"."`
elements are dropped, `".."` pops a preceding normal element (kept at the
start of a relative path, dropped at the root of a rooted path), every other
element is pushed.  The stack holds the output elements, most recent first. -/
def cleanStep (rooted : Bool) (stack : List (List Char)) (e : List Char) :
    List (List Char) :=
  if e = [] ∨ e = ['.'] then stack
  else if e = ['.', '.'] then
    match stack with
    | [] => if rooted then [] else [['.', '.']]
    | top :: rest => if top = ['.', '.'] then ['.', '.'] :: top :: rest else rest
  else e :: stack

/-- Runs `cleanStep` over a list of path elements, starting from the empty
output stack. -/
def cleanStack (rooted : Bool) (es : List (List Char)) : List (List Char) :=
  es.foldl (cleanStep rooted) []

/-- Reassembles the output stack of `cleanStack` into a path, per Go's
`filepath.Clean`: a rooted result is prefixed with `'/'`, and an empty
relative result becomes `"."`. -/
def renderClean (rooted : Bool) (stack : List (List Char)) : List Char :=
  if rooted then '/' :: joinSep stack.reverse
  else if stack = [] then ['.']
  else joinSep stack.reverse

/-- True when the path starts with the separator. -/
def isRooted : List Char → Bool
  | [] => false
  | c :: _ => c = '/'

/-- Go `filepath.Clean` (POSIX): `Clean("") = "."`; otherwise split on the
separator, process the elements, and reassemble. -/
def cleanPath (p : List Char) : List Char :=
  if p = [] then ['.']
  else renderClean (isRooted p) (cleanStack (isRooted p) (splitOn '/' p))

/-- A normal output element of `Clean`: non-empty, not a dot element, and
separator-free. -/
def GoodElem (e : List Char) : Prop :=
  e ≠ [] ∧ e ≠ ['.'] ∧ e ≠ ['.', '.'] ∧ '/' ∉ e

/-- Invariant of the `cleanStack` output: normal elements, followed (at the
bottom of the stack) by the leading `".."` elements of a relative path; a
rooted stack has no `".."` elements. -/
def Inv (r : Bool) (st : List (List Char)) : Prop :=
  ∃ ns ds : List (List Char), st = ns ++ ds ∧ (∀ e ∈ ns, GoodElem e) ∧
    (∀ e ∈ ds, e = ['.', '.']) ∧ (r = true → ds = [])

theorem inv_nil (r : Bool) : Inv r [] :=
  ⟨[], [], by simp, by simp, by simp, fun _ => rfl⟩

theorem cleanStep_skip (r : Bool) (st : List (List Char)) (e : List Char)
    (h : e = [] ∨ e = ['.']) : cleanStep r st e = st := by
  unfold cleanStep; rw [if_pos h]

theorem cleanStep_dotdot_nil (r : Bool) :
    cleanStep r [] ['.', '.'] = if r then [] else [['.', '.']] := by
  cases r <;> rfl

theorem cleanStep_dotdot_cons (r : Bool) (top : List Char)
    (rest : List (List Char)) :
    cleanStep r (top :: rest) ['.', '.'] =
      if top = ['.', '.'] then ['.', '.'] :: top :: rest else rest := by
  unfold cleanStep
  rw [if_neg (by decide), if_pos rfl]

theorem cleanStep_push (r : Bool) (st : List (List Char)) (e : List Char)
    (h1 : ¬(e = [] ∨ e = ['.'])) (h2 : e ≠ ['.', '.']) :
    cleanStep r st e = e :: st := by
  unfold cleanStep; rw [if_neg h1, if_neg h2]

theorem inv_tail (r : Bool) (st : List (List Char)) (h : Inv r st) :
    Inv r st.tail := by
  obtain ⟨ns, ds, hst, hns, hds, hr⟩ := h
  cases ns with
  | nil =>
    rw [List.nil_append] at hst
    subst hst
    exact ⟨[], st.tail, by simp, by simp,
      fun e he => hds e (List.mem_of_mem_tail he),
      fun htr => by simp [hr htr]⟩
  | cons a ns' =>
    subst hst
    exact ⟨ns', ds, by simp, fun e he => hns e (List.mem_cons_of_mem a he),
      hds, hr⟩

theorem inv_elem_ne_nil (r : Bool) (st : List (List Char)) (h : Inv r st) :
    ∀ e ∈ st, e ≠ [] := by
  obtain ⟨ns, ds, hst, hns, hds, _⟩ := h
  subst hst
  intro e he
  rcases List.mem_append.mp he with h1 | h1
  · exact (hns e h1).1
  · rw [hds e h1]; simp

theorem inv_elem_no_sep (r : Bool) (st : List (List Char)) (h : Inv r st) :
    ∀ e ∈ st, '/' ∉ e := by
  obtain ⟨ns, ds, hst, hns, hds, _⟩ := h
  subst hst
  intro e he
  rcases List.mem_append.mp he with h1 | h1
  · exact (hns e h1).2.2.2
  · rw [hds e h1]; decide

theorem inv_step (r : Bool) (st : List (List Char)) (e : List Char)
    (h : Inv r st) (he : '/' ∉ e) : Inv r (cleanStep r st e) := by
  by_cases h1 : e = [] ∨ e = ['.']
  · rw [cleanStep_skip r st e h1]; exact h
  · by_cases h2 : e = ['.', '.']
    · subst h2
      cases st with
      | nil =>
        rw [cleanStep_dotdot_nil]
        cases r with
        | false =>
          exact ⟨[], [['.', '.']], by simp, by simp, by simp, by simp⟩
        | true =>
          exact ⟨[], [], by simp, by simp, by simp, fun _ => rfl⟩
      | cons top rest =>
        rw [cleanStep_dotdot_cons]
        obtain ⟨ns, ds, hst, hns, hds, hr⟩ := h
        by_cases h3 : top = ['.', '.']
        · rw [if_pos h3]
          have hns0 : ns = [] := by
            cases ns with
            | nil => rfl
            | cons a ns' =>
              exfalso
              have ha : a = top := by
                rw [List.cons_append] at hst
                exact (List.cons_eq_cons.mp hst).1.symm
              exact (hns a (List.mem_cons_self a ns')).2.2.1 (ha.trans h3)
          rw [hns0, List.nil_append] at hst
          subst hst
          have hrf : r = false := by
            cases r with
            | false => rfl
            | true => exact absurd (hr rfl) (by simp)
          refine ⟨[], ['.', '.'] :: top :: rest, by simp, by simp, ?_, ?_⟩
          · intro x hx
            rcases List.mem_cons.mp hx with h4 | h4
            · exact h4
            · exact hds x h4
          · intro htr; exact absurd htr (by simp [hrf])
        · rw [if_neg h3]
          exact inv_tail r (top :: rest) ⟨ns, ds, hst, hns, hds, hr⟩
    · rw [cleanStep_push r st e h1 h2]
      obtain ⟨ns, ds, hst, hns, hds, hr⟩ := h
      refine ⟨e :: ns, ds, by rw [hst]; rfl, ?_, hds, hr⟩
      intro x hx
      rcases List.mem_cons.mp hx with h4 | h4
      · subst h4
        exact ⟨fun hc => h1 (Or.inl hc), fun hc => h1 (Or.inr hc), h2, he⟩
      · exact hns x h4

theorem inv_foldl (r : Bool) (es : List (List Char))
    (hes : ∀ e ∈ es, '/' ∉ e) :
    ∀ st, Inv r st → Inv r (es.foldl (cleanStep r) st) := by
  induction es with
  | nil => intro st h; exact h
  | cons e t ih =>
    intro st h
    exact ih (fun x hx => hes x (List.mem_cons_of_mem e hx))
      (cleanStep r st e)
      (inv_step r st e h (hes e (List.mem_cons_self e t)))

theorem inv_cleanStack (r : Bool) (es : List (List Char))
    (hes : ∀ e ∈ es, '/' ∉ e) : Inv r (cleanStack r es) :=
  inv_foldl r es hes [] (inv_nil r)

theorem joinSep_ne_nil (l : List (List Char)) (hl : l ≠ [])
    (h0 : ∀ e ∈ l, e ≠ []) : joinSep l ≠ [] := by
  cases l with
  | nil => exact absurd rfl hl
  | cons e t =>
    cases t with
    | nil => exact h0 e (List.mem_cons_self e [])
    | cons f t' => rw [joinSep_cons_cons]; simp

theorem isRooted_append (a b : List Char) (ha : a ≠ []) :
    isRooted (a ++ b) = isRooted a := by
  cases a with
  | nil => exact absurd rfl ha
  | cons c t => rfl

theorem isRooted_eq_false (e : List Char) (he : e ≠ []) (hs : '/' ∉ e) :
    isRooted e = false := by
  cases e with
  | nil => exact absurd rfl he
  | cons c t =>
    have : c ≠ '/' := by
      intro hc; exact hs (hc ▸ List.mem_cons_self c t)
    simp [isRooted, this]

theorem isRooted_joinSep_cons (e : List Char) (t : List (List Char))
    (he : e ≠ []) : isRooted (joinSep (e :: t)) = isRooted e := by
  cases t with
  | nil => rfl
  | cons f t' => rw [joinSep_cons_cons]; exact isRooted_append e _ he

theorem renderClean_ne_nil (r : Bool) (st : List (List Char))
    (h : Inv r st) : renderClean r st ≠ [] := by
  unfold renderClean
  cases r with
  | true => simp
  | false =>
    by_cases hst : st = []
    · simp [hst]
    · rw [if_neg (by simp), if_neg hst]
      refine joinSep_ne_nil st.reverse (by simpa using hst) ?_
      intro e he
      exact inv_elem_ne_nil false st h e (List.mem_reverse.mp he)

theorem cleanPath_ne_nil (p : List Char) : cleanPath p ≠ [] := by
  unfold cleanPath
  by_cases hp : p = []
  · simp [hp]
  · rw [if_neg hp]
    exact renderClean_ne_nil _ _ (inv_cleanStack _ _ (not_mem_of_mem_splitOn '/' p))

theorem isRooted_renderClean (r : Bool) (st : List (List Char))
    (h : Inv r st) : isRooted (renderClean r st) = r := by
  unfold renderClean
  cases r with
  | true => simp [isRooted]
  | false =>
    by_cases hst : st = []
    · simp [hst, isRooted]
    · rw [if_neg (by simp), if_neg hst]
      obtain ⟨e, t, het⟩ := List.exists_cons_of_ne_nil
        (by simpa using hst : st.reverse ≠ [])
      have hmem : e ∈ st := List.mem_reverse.mp (het ▸ List.mem_cons_self e t)
      rw [het, isRooted_joinSep_cons e t (inv_elem_ne_nil false st h e hmem)]
      exact isRooted_eq_false e (inv_elem_ne_nil false st h e hmem)
        (inv_elem_no_sep false st h e hmem)

theorem isRooted_cleanPath (p : List Char) (hp : p ≠ []) :
    isRooted (cleanPath p) = isRooted p := by
  unfold cleanPath
  rw [if_neg hp]
  exact isRooted_renderClean _ _ (inv_cleanStack _ _ (not_mem_of_mem_splitOn '/' p))

theorem refold_core (r : Bool) (st : List (List Char)) (h : Inv r st) :
    st.reverse.foldl (cleanStep r) [] = st := by
  induction st with
  | nil => rfl
  | cons top rest ih =>
    have hrest : Inv r rest := inv_tail r (top :: rest) h
    rw [List.reverse_cons, List.foldl_append, ih hrest]
    show cleanStep r rest top = top :: rest
    obtain ⟨ns, ds, hst, hns, hds, hr⟩ := h
    cases ns with
    | cons a ns' =>
      have ha : a = top := by
        rw [List.cons_append] at hst
        exact (List.cons_eq_cons.mp hst).1.symm
      have hg : GoodElem top := ha ▸ hns a (List.mem_cons_self a ns')
      exact cleanStep_push r rest top
        (fun hc => hc.elim (fun h1 => hg.1 h1) (fun h1 => hg.2.1 h1)) hg.2.2.1
    | nil =>
      rw [List.nil_append] at hst
      have htop : top = ['.', '.'] := hds top (hst ▸ List.mem_cons_self top rest)
      have hrf : r = false := by
        cases r with
        | false => rfl
        | true => exact absurd (hr rfl) (by rw [← hst]; simp)
      subst htop
      cases rest with
      | nil => rw [cleanStep_dotdot_nil, hrf]; rfl
      | cons t2 rest2 =>
        have ht2 : t2 = ['.', '.'] := by
          refine hds t2 ?_
          rw [← hst]
          exact List.mem_cons_of_mem _ (List.mem_cons_self t2 rest2)
        rw [cleanStep_dotdot_cons, if_pos ht2, ht2]

theorem refold (r : Bool) (st : List (List Char)) (h : Inv r st) :
    cleanStack r (splitOn '/' (renderClean r st)) = st := by
  unfold renderClean
  cases r with
  | true =>
    rw [if_pos rfl]
    by_cases hst : st = []
    · subst hst; rfl
    · rw [splitOn_cons_sep, splitOn_joinSep st.reverse (by simpa using hst)
        (fun e he => inv_elem_no_sep true st h e (List.mem_reverse.mp he))]
      show List.foldl (cleanStep true) (cleanStep true [] []) st.reverse = st
      rw [cleanStep_skip true [] [] (Or.inl rfl)]
      exact refold_core true st h
  | false =>
    rw [if_neg (by simp)]
    by_cases hst : st = []
    · subst hst; rfl
    · rw [if_neg hst, splitOn_joinSep st.reverse (by simpa using hst)
        (fun e he => inv_elem_no_sep false st h e (List.mem_reverse.mp he))]
      exact refold_core false st h

theorem cleanStack_cleanPath (p : List Char) (hp : p ≠ []) :
    cleanStack (isRooted p) (splitOn '/' (cleanPath p)) =
      cleanStack (isRooted p) (splitOn '/' p) := by
  conv_lhs => rw [cleanPath, if_neg hp]
  exact refold (isRooted p) _ (inv_cleanStack _ _ (not_mem_of_mem_splitOn '/' p))

/-- The key algebraic fact about `filepath.Clean`: appending a path segment
sequence to an already-cleaned path and cleaning again gives the same result
as cleaning the whole path at once. -/
theorem clean_append (p y : List Char) (hp : p ≠ []) :
    cleanPath (cleanPath p ++ '/' :: y) = cleanPath (p ++ '/' :: y) := by
  have hq : cleanPath p ≠ [] := cleanPath_ne_nil p
  have hr : isRooted (cleanPath p) = isRooted p := isRooted_cleanPath p hp
  conv_lhs => rw [cleanPath, if_neg (by simp [hq]), isRooted_append _ _ hq, hr]
  conv_rhs => rw [cleanPath, if_neg (by simp [hp]), isRooted_append _ _ hp]
  rw [splitOn_append, splitOn_append]
  unfold cleanStack
  rw [List.foldl_append, List.foldl_append]
  have h2 : List.foldl (cleanStep (isRooted p)) [] (splitOn '/' (cleanPath p)) =
      List.foldl (cleanStep (isRooted p)) [] (splitOn '/' p) :=
    cleanStack_cleanPath p hp
  rw [h2]

/-- Go `filepath.Join` (POSIX): joins the arguments starting from the first
non-empty one with the separator, then cleans the result; all-empty input
yields the empty path. -/
def joinGo (elems : List (List Char)) : List Char :=
  match elems.dropWhile List.isEmpty with
  | [] => []
  | l => cleanPath (joinSep l)

theorem joinGo_cons_of_ne_nil (a : List Char) (rest : List (List Char))
    (ha : a ≠ []) : joinGo (a :: rest) = cleanPath (joinSep (a :: rest)) := by
  unfold joinGo
  rw [List.dropWhile_cons_of_neg (by simpa using ha)]

theorem joinGo_nil_cons (rest : List (List Char)) :
    joinGo ([] :: rest) = joinGo rest := by
  unfold joinGo
  rw [List.dropWhile_cons_of_pos rfl]

theorem joinGo_pair_ne_nil (a b : List Char) (h : a ≠ [] ∨ b ≠ []) :
    joinGo [a, b] ≠ [] := by
  by_cases ha : a = []
  · subst ha
    have hb : b ≠ [] := h.resolve_left (fun hc => hc rfl)
    rw [joinGo_nil_cons, joinGo_cons_of_ne_nil b [] hb, joinSep_singleton]
    exact cleanPath_ne_nil b
  · rw [joinGo_cons_of_ne_nil a [b] ha]
    exact cleanPath_ne_nil _

/-- Nested binary joins collapse to one flat join: this is the lexical heart
of the repository's default-path construction. -/
theorem joinGo_assoc (x b n : List Char) (hb : b ≠ []) :
    joinGo [joinGo [x, b], n] = joinGo [x, b, n] := by
  by_cases hx : x = []
  · subst hx
    rw [joinGo_nil_cons, joinGo_nil_cons,
      joinGo_cons_of_ne_nil b [] hb, joinSep_singleton,
      joinGo_cons_of_ne_nil _ [n] (cleanPath_ne_nil b),
      joinGo_cons_of_ne_nil b [n] hb,
      joinSep_cons_cons, joinSep_cons_cons, joinSep_singleton]
    exact clean_append b n hb
  · rw [joinGo_cons_of_ne_nil x [b] hx, joinGo_cons_of_ne_nil x [b, n] hx,
      joinGo_cons_of_ne_nil _ [n] (cleanPath_ne_nil _),
      joinSep_cons_cons, joinSep_singleton,
      joinSep_cons_cons, joinSep_singleton,
      joinSep_cons_cons, joinSep_cons_cons, joinSep_singleton]
    have h1 := clean_append (x ++ '/' :: b) n (by simp)
    rw [List.append_assoc, List.cons_append] at h1
    exact h1

/-! ## String-level wrappers and the embedding of `xdg.go`. -/

/-- Go `filepath.Join` with two arguments. -/
def filepathJoin2 (a b : String) : String := ⟨joinGo [a.data, b.data]⟩

/-- Go `filepath.Join` with three arguments. -/
def filepathJoin3 (a b c : String) : String := ⟨joinGo [a.data, b.data, c.data]⟩

theorem string_eq_iff_data (a b : String) : a = b ↔ a.data = b.data :=
  ⟨fun h => h ▸ rfl, fun h => by cases a; cases b; exact congrArg String.mk h⟩

theorem string_ne_empty_iff (s : String) : s ≠ "" ↔ s.data ≠ [] := by
  rw [not_iff_not, string_eq_iff_data]

theorem string_length_pos_iff (s : String) : 0 < s.length ↔ s ≠ "" := by
  rw [string_ne_empty_iff]
  exact List.length_pos

theorem filepathJoin2_ne_empty (a b : String) (h : a ≠ "" ∨ b ≠ "") :
    filepathJoin2 a b ≠ "" := by
  rw [string_ne_empty_iff]
  show joinGo [a.data, b.data] ≠ []
  refine joinGo_pair_ne_nil a.data b.data ?_
  rcases h with h | h
  · exact Or.inl ((string_ne_empty_iff a).mp h)
  · exact Or.inr ((string_ne_empty_iff b).mp h)

/-- Nested binary joins collapse to one flat join, at the `String` level. -/
theorem filepathJoin_assoc (p b n : String) (hb : b ≠ "") :
    filepathJoin2 (filepathJoin2 p b) n = filepathJoin3 p b n := by
  rw [string_eq_iff_data]
  show joinGo [joinGo [p.data, b.data], n.data] = joinGo [p.data, b.data, n.data]
  exact joinGo_assoc p.data b.data n.data ((string_ne_empty_iff b).mp hb)

/-- Go `strings.ToUpper` restricted to the ASCII uppercasing the keys need. -/
def stringsToUpper (s : String) : String := ⟨s.data.map Char.toUpper⟩

/-- Go `filepath.SplitList` (POSIX): the empty string yields no entries,
otherwise the string is split on the `':'` list separator. -/
def splitList (p : String) : List String :=
  if p = "" then [] else (splitOn ':' p.data).map String.mk

/-- The environment snapshot a resolution call reads: a mapping from
variable names to a present value (possibly empty) or absence, as read by
`os.LookupEnv`. -/
structure Env where
  vars : String → Option String

/-- Go `os.UserHomeDir` on POSIX: the value of `HOME` when it is set and
non-empty, and an error otherwise. -/
def userHomeDir (env : Env) : Option String :=
  match env.vars "HOME" with
  | some v => if v = "" then none else some v
  | none => none

def defaultHomeBase : String := ".config"

def defaultCacheBase : String := ".cache"

def defaultDataBase : String := ".local/share"

def defaultStateBase : String := ".local/state"

def defaultDataDirs : String := "/usr/local/share/:/usr/share/"

def defaultConfigDirs : String := "/etc/xdg"

def configHomeKey : String := "XDG_CONFIG_HOME"

def cacheHomeKey : String := "XDG_CACHE_HOME"

def dataHomeKey : String := "XDG_DATA_HOME"

def stateHomeKey : String := "XDG_STATE_HOME"

def runtimeDirKey : String := "XDG_RUNTIME_DIR"

def dataDirsKey : String := "XDG_DATA_DIRS"

def configDirsKey : String := "XDG_CONFIG_DIRS"

/-- The `dirFinder` struct, the repository's only `DirFinder`
implementation: it wraps the application name. -/
structure dirFinder where
  name : String

def dirFinder.Name (df : dirFinder) : String := df.name

def NewDirFinder (name : String) : dirFinder := ⟨name⟩

structure XDG where
  finder : dirFinder

def NewXDG (finder : dirFinder) : XDG := ⟨finder⟩

def newXdg (name : String) : XDG := NewXDG (NewDirFinder name)

def XDG.defaultVal (xdg : XDG) (home key : String) : String :=
  let k := stringsToUpper key
  if k = configHomeKey then
    filepathJoin2 (filepathJoin2 home defaultHomeBase) xdg.finder.Name
  else if k = cacheHomeKey then
    filepathJoin2 (filepathJoin2 home defaultCacheBase) xdg.finder.Name
  else if k = dataHomeKey then
    filepathJoin2 (filepathJoin2 home defaultDataBase) xdg.finder.Name
  else if k = stateHomeKey then
    filepathJoin2 (filepathJoin2 home defaultStateBase) xdg.finder.Name
  else ""

def XDG.getDir (xdg : XDG) (env : Env) (key : String) : String :=
  match env.vars key with
  | some val => filepathJoin2 val xdg.finder.Name
  | none =>
    if key = runtimeDirKey then ""
    else
      match userHomeDir env with
      | none => ""
      | some home =>
        let d := xdg.defaultVal home key
        if 0 < d.length then d
        else filepathJoin2 home ("." ++ xdg.finder.Name)

def XDG.getDirs (xdg : XDG) (env : Env) (key : String) : List String :=
  let p : String :=
    match env.vars key with
    | some v => v
    | none =>
      if key = dataDirsKey then defaultDataDirs
      else if key = configDirsKey then defaultConfigDirs
      else ""
  if 0 < p.length then
    (splitList p).map (fun q => filepathJoin2 q xdg.finder.Name)
  else []

def XDG.Config (xdg : XDG) (env : Env) : String := xdg.getDir env configHomeKey

def XDG.Cache (xdg : XDG) (env : Env) : String := xdg.getDir env cacheHomeKey

def XDG.Data (xdg : XDG) (env : Env) : String := xdg.getDir env dataHomeKey

def XDG.State (xdg : XDG) (env : Env) : String := xdg.getDir env stateHomeKey

def XDG.Runtime (xdg : XDG) (env : Env) : String := xdg.getDir env runtimeDirKey

def XDG.ConfigDirs (xdg : XDG) (env : Env) : List String :=
  xdg.getDirs env configDirsKey

def XDG.DataDirs (xdg : XDG) (env : Env) : List String :=
  xdg.getDirs env dataDirsKey

def Config (env : Env) (name : String) : String := (newXdg name).Config env

def State (env : Env) (name : String) : String := (newXdg name).State env

def Data (env : Env) (name : String) : String := (newXdg name).Data env

def Cache (env : Env) (name : String) : String := (newXdg name).Cache env

def Runtime (env : Env) (name : String) : String := (newXdg name).Runtime env

def ConfigDirs (env : Env) (name : String) : List String :=
  (newXdg name).ConfigDirs env

def DataDirs (env : Env) (name : String) : List String :=
  (newXdg name).DataDirs env

/-- The `Dir` path value: in the source, `type Dir string`. -/
abbrev Dir := String

/-- Outcome of an `os.Stat` call, as far as `exists` inspects it: success,
a "not found" error, or any other error. -/
inductive GoError where
  | notExist
  | other
deriving DecidableEq

/-- Go `os.IsNotExist` on the error of a stat call (`none` = no error). -/
def osIsNotExist : Option GoError → Bool
  | some GoError.notExist => true
  | _ => false

/-- The package-private `exists` helper: stat the path and report the
negation of `os.IsNotExist` on its error.  The stat oracle is passed in
explicitly, standing for the state of the filesystem. -/
def existsStat (stat : String → Option GoError) (path : String) : Bool :=
  !osIsNotExist (stat path)

def Dir.Exists (stat : String → Option GoError) (d : Dir) : Bool :=
  existsStat stat d

def Dir.Append (d : Dir) (name : String) : Dir := filepathJoin2 d name

/-- The source's `Dir.Split`: `strings.Split` on the separator, dropping a
leading empty chunk, then unconditionally indexing `p[len(p)-1]` for the
trailing check.  The out-of-range access that Go punishes with a runtime
panic is modelled as `none`. -/
def Dir.Split (d : Dir) : Option (List String) :=
  let p := (splitOn '/' (String.data d)).map String.mk
  if 0 < p.length then
    let p1 := if p.headI.length = 0 then p.tail else p
    match p1.getLast? with
    | none => none
    | some last => if last.length = 0 then some p1.dropLast else some p1
  else some p

/-- Follows the specification's words for `Split`: a direct textual split on
the separator character, discarding one leading empty segment and one
trailing empty segment, preserving interior empty segments.  Stated
independently of the source for comparison. -/
def splitSpec (d : String) : List String :=
  let p := (splitOn '/' d.data).map String.mk
  let p1 := if p.headI = "" then p.tail else p
  if p1.getLast? = some "" then p1.dropLast else p1

/-! ## Concrete environments used by the witnesses. -/

/-- An environment with only `HOME` set. -/
def envHome : Env := ⟨fun k => if k = "HOME" then some "/home/t" else none⟩

/-- The empty environment. -/
def envEmpty : Env := ⟨fun _ => none⟩

/-- An environment with only `XDG_CONFIG_HOME` set. -/
def envConfigSet : Env :=
  ⟨fun k => if k = configHomeKey then some "/cfg" else none⟩

/-- An environment with only `XDG_DATA_DIRS` set. -/
def envDirsSet : Env := ⟨fun k => if k = dataDirsKey then some "A:B" else none⟩

/-! ## The claims. -/

/-- Claim C1: for every recognized single-path role whose environment
variable is set to a value `V` (the empty string included), resolution
returns exactly `filepath.Join(V, appName)` — no fallback, no validation
of `V`. -/
theorem getDir_env_set (xdg : XDG) (env : Env) (key V : String)
    (_hkey : key ∈ [configHomeKey, cacheHomeKey, dataHomeKey, stateHomeKey,
      runtimeDirKey])
    (hv : env.vars key = some V) :
    xdg.getDir env key = filepathJoin2 V xdg.finder.Name := by
  simp only [XDG.getDir, hv]

/-- Witness for C1 at a concrete environment and application name. -/
theorem getDir_env_set_witness :
    envConfigSet.vars configHomeKey = some "/cfg" ∧
    configHomeKey ∈ [configHomeKey, cacheHomeKey, dataHomeKey, stateHomeKey,
      runtimeDirKey] ∧
    (newXdg "app").getDir envConfigSet configHomeKey = "/cfg/app" := by
  refine ⟨by decide, by decide, ?_⟩
  rw [getDir_env_set (newXdg "app") envConfigSet configHomeKey "/cfg"
    (by decide) (by decide)]
  decide

/-- Claim C3: every failure path degrades to an empty result: `RuntimeDir`
with its variable unset resolves to `""` regardless of the home directory,
and a home-based role with its variable unset and the home directory
unresolvable resolves to `""`. -/
theorem getDir_failure_empty :
    (∀ (xdg : XDG) (env : Env), env.vars runtimeDirKey = none →
      xdg.getDir env runtimeDirKey = "") ∧
    (∀ (xdg : XDG) (env : Env) (key : String),
      key ∈ [configHomeKey, cacheHomeKey, dataHomeKey, stateHomeKey] →
      env.vars key = none → userHomeDir env = none →
      xdg.getDir env key = "") := by
  constructor
  · intro xdg env hv
    simp [XDG.getDir, hv]
  · intro xdg env key hkey hv hh
    have hne : key ≠ runtimeDirKey := by
      simp only [List.mem_cons, List.not_mem_nil, or_false] at hkey
      rcases hkey with h | h | h | h <;> subst h <;> decide
    simp only [XDG.getDir, hv, hh]
    rw [if_neg hne]

/-- Witness for C3: runtime with a resolvable home, and a home role with no
home at all. -/
theorem getDir_failure_empty_witness :
    envHome.vars runtimeDirKey = none ∧
    (newXdg "app").getDir envHome runtimeDirKey = "" ∧
    envEmpty.vars configHomeKey = none ∧ userHomeDir envEmpty = none ∧
    (newXdg "app").getDir envEmpty configHomeKey = "" :=
  ⟨by decide, getDir_failure_empty.1 (newXdg "app") envHome (by decide),
   by decide, by decide,
   getDir_failure_empty.2 (newXdg "app") envEmpty configHomeKey (by decide)
     (by decide) (by decide)⟩

/-- Claim C9: `Exists` is false exactly when the stat call reports "not
found"; a successful stat and any other stat error both give true, and no
error is ever propagated. -/
theorem exists_iff_not_found (stat : String → Option GoError) (d : Dir) :
    Dir.Exists stat d = false ↔ stat d = some GoError.notExist := by
  unfold Dir.Exists existsStat
  cases hs : stat d with
  | none => decide
  | some e => cases e <;> decide

/-- Claim C10: each package-level convenience function agrees with
constructing a resolver bound to the name and invoking the per-role method
once, for every environment snapshot. -/
theorem package_eq_resolver (env : Env) (name : String) :
    Config env name = (NewXDG (NewDirFinder name)).Config env ∧
    Cache env name = (NewXDG (NewDirFinder name)).Cache env ∧
    Data env name = (NewXDG (NewDirFinder name)).Data env ∧
    State env name = (NewXDG (NewDirFinder name)).State env ∧
    Runtime env name = (NewXDG (NewDirFinder name)).Runtime env ∧
    ConfigDirs env name = (NewXDG (NewDirFinder name)).ConfigDirs env ∧
    DataDirs env name = (NewXDG (NewDirFinder name)).DataDirs env :=
  ⟨rfl, rfl, rfl, rfl, rfl, rfl, rfl⟩

/-- Claim C8: `Append` is pure and composes with path joining: appending
`"a"` then `"b"` equals the direct three-way join for every base path. -/
theorem append_append_eq_join (p : Dir) :
    Dir.Append (Dir.Append p "a") "b" = filepathJoin3 p "a" "b" := by
  show filepathJoin2 (filepathJoin2 p "a") "b" = filepathJoin3 p "a" "b"
  exact filepathJoin_assoc p "a" "b" (by decide)

theorem getDir_default_home_case (xdg : XDG) (env : Env) (H key base : String)
    (hne : key ≠ runtimeDirKey) (hv : env.vars key = none)
    (hh : userHomeDir env = some H)
    (hdv : xdg.defaultVal H key =
      filepathJoin2 (filepathJoin2 H base) xdg.finder.Name)
    (hbase : base ≠ "") :
    xdg.getDir env key = filepathJoin3 H base xdg.finder.Name := by
  simp only [XDG.getDir, hv, hh]
  rw [if_neg hne, hdv,
    if_pos ((string_length_pos_iff _).mpr (filepathJoin2_ne_empty _ _
      (Or.inl (filepathJoin2_ne_empty _ _ (Or.inr hbase))))),
    filepathJoin_assoc H base xdg.finder.Name hbase]

/-- Claim C2: for every home-based single-path role with its variable unset
and a resolvable home directory `H`, resolution returns exactly
`filepath.Join(H, defaultBase(role), appName)`, with `.config`, `.cache`,
`.local/share`, `.local/state` as the respective default bases. -/
theorem getDir_default_home (xdg : XDG) (env : Env) (H key base : String)
    (hkb : (key, base) ∈ [(configHomeKey, ".config"), (cacheHomeKey, ".cache"),
      (dataHomeKey, ".local/share"), (stateHomeKey, ".local/state")])
    (hv : env.vars key = none) (hh : userHomeDir env = some H) :
    xdg.getDir env key = filepathJoin3 H base xdg.finder.Name := by
  simp only [List.mem_cons, List.not_mem_nil, or_false, Prod.mk.injEq] at hkb
  rcases hkb with ⟨h1, h2⟩ | ⟨h1, h2⟩ | ⟨h1, h2⟩ | ⟨h1, h2⟩ <;>
    subst h1 <;> subst h2
  · refine getDir_default_home_case xdg env H _ _ (by decide) hv hh ?_ (by decide)
    simp only [XDG.defaultVal, defaultHomeBase]
    rw [if_pos (by decide)]
  · refine getDir_default_home_case xdg env H _ _ (by decide) hv hh ?_ (by decide)
    simp only [XDG.defaultVal, defaultCacheBase]
    rw [if_neg (by decide), if_pos (by decide)]
  · refine getDir_default_home_case xdg env H _ _ (by decide) hv hh ?_ (by decide)
    simp only [XDG.defaultVal, defaultDataBase]
    rw [if_neg (by decide), if_neg (by decide), if_pos (by decide)]
  · refine getDir_default_home_case xdg env H _ _ (by decide) hv hh ?_ (by decide)
    simp only [XDG.defaultVal, defaultStateBase]
    rw [if_neg (by decide), if_neg (by decide), if_neg (by decide),
      if_pos (by decide)]

/-- Witness for C2 at `HOME=/home/t` with no XDG variables set. -/
theorem getDir_default_home_witness :
    envHome.vars configHomeKey = none ∧
    userHomeDir envHome = some "/home/t" ∧
    (newXdg "go-xdg-test").getDir envHome configHomeKey =
      "/home/t/.config/go-xdg-test" := by
  refine ⟨by decide, by decide, ?_⟩
  rw [getDir_default_home (newXdg "go-xdg-test") envHome "/home/t"
    configHomeKey ".config" (by decide) (by decide) (by decide)]
  decide

/-- Claim C4: for a search-path role with its variable set, a non-empty
value is split on the `':'` list separator with the application name joined
onto every entry in source order, and an empty value yields the empty list
rather than an error. -/
theorem getDirs_env_set (xdg : XDG) (env : Env) (key V : String)
    (_hkey : key ∈ [dataDirsKey, configDirsKey])
    (hv : env.vars key = some V) :
    (V = "" → xdg.getDirs env key = []) ∧
    (V ≠ "" → xdg.getDirs env key =
      (splitOn ':' V.data).map (fun q => filepathJoin2 ⟨q⟩ xdg.finder.Name)) := by
  constructor
  · intro hV
    subst hV
    simp [XDG.getDirs, hv]
  · intro hV
    simp only [XDG.getDirs, hv]
    rw [if_pos ((string_length_pos_iff V).mpr hV)]
    unfold splitList
    rw [if_neg hV, List.map_map]
    rfl

/-- Witness for C4: `XDG_DATA_DIRS=A:B` yields the two joined entries in
order, and the split-and-join form evaluates to them. -/
theorem getDirs_env_set_witness :
    envDirsSet.vars dataDirsKey = some "A:B" ∧ ("A:B" : String) ≠ "" ∧
    (newXdg "app").getDirs envDirsSet dataDirsKey = ["A/app", "B/app"] := by
  refine ⟨by decide, by decide, ?_⟩
  rw [(getDirs_env_set (newXdg "app") envDirsSet dataDirsKey "A:B"
    (by decide) (by decide)).2 (by decide)]
  decide

/-- Claim C5: for a search-path role with its variable unset, the
specification-defined default list is used, with the application name joined
onto every entry in original order. -/
theorem getDirs_default (xdg : XDG) (env : Env) :
    (env.vars configDirsKey = none →
      xdg.getDirs env configDirsKey =
        [filepathJoin2 "/etc/xdg" xdg.finder.Name]) ∧
    (env.vars dataDirsKey = none →
      xdg.getDirs env dataDirsKey =
        [filepathJoin2 "/usr/local/share/" xdg.finder.Name,
          filepathJoin2 "/usr/share/" xdg.finder.Name]) := by
  constructor
  · intro hv
    simp only [XDG.getDirs, hv]
    rw [if_neg (show ¬configDirsKey = dataDirsKey by decide), if_pos trivial,
      if_pos (show 0 < defaultConfigDirs.length by decide)]
    have hs : splitList defaultConfigDirs = ["/etc/xdg"] := by decide
    rw [hs]
    rfl
  · intro hv
    simp only [XDG.getDirs, hv]
    rw [if_pos trivial, if_pos (show 0 < defaultDataDirs.length by decide)]
    have hs : splitList defaultDataDirs = ["/usr/local/share/", "/usr/share/"] := by
      decide
    rw [hs]
    rfl

/-- Witness for C5, the claim's concrete scenario: no variables set and
application name `go-xdg-test`. -/
theorem getDirs_default_witness :
    envEmpty.vars configDirsKey = none ∧ envEmpty.vars dataDirsKey = none ∧
    ConfigDirs envEmpty "go-xdg-test" = ["/etc/xdg/go-xdg-test"] ∧
    DataDirs envEmpty "go-xdg-test" =
      ["/usr/local/share/go-xdg-test", "/usr/share/go-xdg-test"] := by
  refine ⟨by decide, by decide, ?_, ?_⟩
  · show (newXdg "go-xdg-test").getDirs envEmpty configDirsKey = _
    rw [(getDirs_default (newXdg "go-xdg-test") envEmpty).1 (by decide)]
    decide
  · show (newXdg "go-xdg-test").getDirs envEmpty dataDirsKey = _
    rw [(getDirs_default (newXdg "go-xdg-test") envEmpty).2 (by decide)]
    decide

theorem string_length_eq_zero_iff (s : String) : s.length = 0 ↔ s = "" := by
  constructor
  · intro h
    by_contra hne
    have := (string_length_pos_iff s).mpr hne
    omega
  · intro h
    subst h
    rfl

theorem dirSplit_trailing (p1 : List String) (h : p1 ≠ []) :
    (match p1.getLast? with
      | none => none
      | some last => if last.length = 0 then some p1.dropLast else some p1) =
      some (if p1.getLast? = some "" then p1.dropLast else p1) := by
  rw [List.getLast?_eq_getLast_of_ne_nil h]
  show (if (p1.getLast h).length = 0 then some p1.dropLast else some p1) =
    some (if some (p1.getLast h) = some "" then p1.dropLast else p1)
  by_cases hg : p1.getLast h = ""
  · rw [if_pos ((string_length_eq_zero_iff _).mpr hg), if_pos (by rw [hg])]
  · rw [if_neg (fun hc => hg ((string_length_eq_zero_iff _).mp hc)),
      if_neg (fun hc => hg (Option.some_inj.mp hc))]

theorem map_mk_splitOn_ne_nil (s : List Char) :
    (splitOn '/' s).map String.mk ≠ [] := by
  intro h
  exact splitOn_ne_nil '/' s (List.map_eq_nil_iff.mp h)

theorem dirSplit_eq_splitSpec (d : Dir) (hd : d ≠ "") :
    Dir.Split d = some (splitSpec d) := by
  obtain ⟨c, rest, hcr⟩ :=
    List.exists_cons_of_ne_nil ((string_ne_empty_iff d).mp hd)
  simp only [Dir.Split, splitSpec]
  by_cases hc : c = '/'
  · subst hc
    rw [hcr, splitOn_cons_sep, List.map_cons]
    rw [if_pos (show 0 < (String.mk [] :: (splitOn '/' rest).map String.mk).length
      by simp)]
    simp only [List.headI_cons, List.tail_cons]
    rw [if_pos (show (String.mk []).length = 0 from rfl), if_pos trivial]
    exact dirSplit_trailing _ (map_mk_splitOn_ne_nil rest)
  · rw [hcr, splitOn_cons_ne '/' c rest hc, List.map_cons]
    rw [if_pos (show 0 <
      (String.mk (c :: (splitOn '/' rest).headI) ::
        ((splitOn '/' rest).tail).map String.mk).length by simp)]
    simp only [List.headI_cons]
    rw [if_neg (show ¬(String.mk (c :: (splitOn '/' rest).headI)).length = 0 by
        show ¬(c :: (splitOn '/' rest).headI).length = 0
        simp),
      if_neg ((string_ne_empty_iff (String.mk (c :: (splitOn '/' rest).headI))).mpr
        (by simp))]
    exact dirSplit_trailing (String.mk (c :: (splitOn '/' rest).headI) ::
      ((splitOn '/' rest).tail).map String.mk) (by simp)

/-- Claim C6 (code bug): on every non-empty path `Split` is the direct
textual split the specification describes, but on the empty path — a value
the resolver itself produces — the trailing-segment check indexes out of
range, which Go punishes with a runtime panic (modelled as `none`) instead
of returning the empty segment list. -/
theorem dirSplit_code_bug :
    Dir.Split ("" : String) = none ∧ splitSpec "" = [] ∧
    ∀ d : Dir, d ≠ "" → Dir.Split d = some (splitSpec d) :=
  ⟨by decide, by decide, fun d hd => dirSplit_eq_splitSpec d hd⟩

/-- Witness for C6 at the specification's own example path. -/
theorem dirSplit_code_bug_witness :
    ("/tmp/me/.local/share/run/" : String) ≠ "" ∧
    Dir.Split ("/tmp/me/.local/share/run/" : String) =
      some ["tmp", "me", ".local", "share", "run"] := by
  refine ⟨by decide, ?_⟩
  rw [dirSplit_code_bug.2.2 "/tmp/me/.local/share/run/" (by decide)]
  decide

/-- Claim C7 (code bug): `Split` stays in bounds exactly on the non-empty
paths; on the empty path — which the data model explicitly allows — the
access at position `len(p)-1` is out of range and the code panics, so the
claimed totality fails. -/
theorem dirSplit_total_iff (d : Dir) : (Dir.Split d).isSome = true ↔ d ≠ "" := by
  constructor
  · intro h hd
    subst hd
    exact absurd h (by decide)
  · intro hd
    rw [dirSplit_eq_splitSpec d hd]
    rfl

end Xdg
